import Mathlib

/-!
Verification of the EvoForgePlus core against its specification.

The definitions below are a shallow embedding of the Python sources:
`evoforge/agent_dna_config.py` (declarative graph data model and its
validation), `evoforge/engine.py` (the `GraphAgent.forward` execution
loop), and `evoforge/optimizer.py` (evaluation harness, architecture
mutation and the dual-loop evolution controller).  External collaborators
(the DSPy modules, the JSON library, the reasoning model) are parameters
of the embedded functions.  Machine strings are Lean `String`s; Python's
`str.upper`, `str.strip`, `str.replace`, `str.split`, `str.startswith` and
substring containment are modelled by the executable `py…`/`str…`/`list…`
helpers below (ASCII case mapping, which covers every value the claims
mention); floating-point scores are modelled by `ℚ`.
-/

namespace EvoForge

/-- Prefix test on character lists. -/
def listPrefixOf : List Char → List Char → Bool
  | [], _ => true
  | _ :: _, [] => false
  | a :: as, b :: bs => a == b && listPrefixOf as bs

/-- Does the needle start at some suffix of the haystack? -/
def listContainsSub (needle : List Char) : List Char → Bool
  | [] => listPrefixOf needle []
  | c :: rest => listPrefixOf needle (c :: rest) || listContainsSub needle rest

/-- Substring containment, modelling Python's `needle in haystack` on `str`. -/
def strContains (hay needle : String) : Bool :=
  listContainsSub needle.toList hay.toList

/-- Python `str.upper()` (ASCII case mapping). -/
def pyUpper (s : String) : String :=
  String.mk (s.toList.map Char.toUpper)

/-- Python `str.strip()`: drop whitespace at both ends. -/
def pyStrip (s : String) : String :=
  String.mk (((s.toList.dropWhile Char.isWhitespace).reverse.dropWhile
    Char.isWhitespace).reverse)

/-- Python `str.startswith(p)`. -/
def pyStartsWith (s p : String) : Bool := listPrefixOf p.toList s.toList

/-- Left-to-right non-overlapping replacement on character lists, with fuel
(each step consumes at least one character, so the haystack's length is
enough fuel for a non-empty needle). -/
def pyReplaceFuel (needle repl : List Char) : Nat → List Char → List Char
  | 0, l => l
  | _ + 1, [] => []
  | f + 1, c :: rest =>
      if listPrefixOf needle (c :: rest) then
        repl ++ pyReplaceFuel needle repl f ((c :: rest).drop needle.length)
      else c :: pyReplaceFuel needle repl f rest

/-- Python `str.replace(needle, repl)` for a non-empty needle. -/
def pyReplace (s needle repl : String) : String :=
  String.mk (pyReplaceFuel needle.toList repl.toList s.toList.length s.toList)

/-- Python `str.split(sep)` on character lists, with fuel. -/
def pySplitFuel (sep : List Char) : Nat → List Char → List Char → List (List Char)
  | 0, acc, l => [acc.reverse ++ l]
  | _ + 1, acc, [] => [acc.reverse]
  | f + 1, acc, c :: rest =>
      if listPrefixOf sep (c :: rest) then
        acc.reverse :: pySplitFuel sep f [] ((c :: rest).drop sep.length)
      else pySplitFuel sep f (c :: acc) rest

/-- Python `str.split(sep)` for a non-empty separator. -/
def pySplit (s sep : String) : List String :=
  (pySplitFuel sep.toList (s.toList.length + 1) [] s.toList).map String.mk

/- ---------------------------------------------------------------------
   agent_dna_config.py : data model
--------------------------------------------------------------------- -/

/-- `NodeConfig` (agent_dna_config.py): one node of the agent graph. -/
structure NodeConfig where
  type : String
  signature : String
  instruction : String
  tools : List String
deriving Repr, DecidableEq

/-- `FlowRule = Union[BranchFlow, SequenceFlow]` (agent_dna_config.py):
`seq` carries `next`; `branch` carries `source_var`, the insertion-ordered
`branches` mapping, and `default` (dflt). -/
inductive FlowRule where
  | seq (next : String)
  | branch (sourceVar : String) (branches : List (String × String)) (dflt : String)
deriving Repr, DecidableEq

/-- `AgentDNAConfig` (agent_dna_config.py): the root configuration record.
Python dicts keep insertion order, so `nodes` and `flow` are ordered
association lists. -/
structure AgentDNAConfig where
  agentId : String
  version : String
  startNode : String
  nodes : List (String × NodeConfig)
  flow : List (String × FlowRule)
deriving Repr, DecidableEq

/-- `NodeConfig.validate_signature` (agent_dna_config.py line 54): the only
signature check performed at construction time is that the text contains
the separator `"->"`. -/
def validate_signature (v : String) : Except String String :=
  if strContains v "->" then Except.ok v
  else Except.error ("Signature must contain '->'. Got: " ++ v)

/-- The closed set of the `type` field's `Literal` (agent_dna_config.py
line 49); pydantic rejects any other value while parsing the field. -/
def allowedNodeTypes : List String := ["ChainOfThought", "ReAct", "Predict"]

/-- Field-level validation of one node, as pydantic performs it while
parsing `nodes`: the `Literal` check on `type` and `validate_signature`. -/
def nodeErrors (name : String) (nc : NodeConfig) : List String :=
  (if nc.type ∈ allowedNodeTypes then []
   else ["Node '" ++ name ++ "': invalid type '" ++ nc.type ++ "'"]) ++
  (match validate_signature nc.signature with
   | Except.ok _ => []
   | Except.error e => ["Node '" ++ name ++ "': " ++ e])

/-- Pydantic collects the field errors of every node before raising. -/
def validateNodes (nodes : List (String × NodeConfig)) : List String :=
  (nodes.map (fun p => nodeErrors p.1 p.2)).flatten

/-- The set of legal jump targets: every defined node name plus `"end"`
(agent_dna_config.py lines 179-181). -/
def validNames (nodes : List (String × NodeConfig)) : List String :=
  nodes.map (fun p => p.1) ++ ["end"]

/-- The first integrity error of a single flow rule, in the source's check
order: sequence `next`; each branch target in insertion order; the default
target (agent_dna_config.py lines 194-206). -/
def ruleError (valid : List String) (name : String) : FlowRule → Option String
  | FlowRule.seq nxt =>
      if nxt ∈ valid then none
      else some ("Node '" ++ name ++ "' points to undefined node '" ++ nxt ++ "'")
  | FlowRule.branch _ brs dflt =>
      match brs.find? (fun kt => !(decide (kt.2 ∈ valid))) with
      | some kt =>
          some ("Node '" ++ name ++ "' branch '" ++ kt.1 ++
                "' points to undefined node '" ++ kt.2 ++ "'")
      | none =>
          if dflt ∈ valid then none
          else some ("Node '" ++ name ++ "' default branch points to undefined node '"
                     ++ dflt ++ "'")

/-- The first integrity error over the flow mapping, in insertion order. -/
def firstFlowError (valid : List String) : List (String × FlowRule) → Option String
  | [] => none
  | (name, rule) :: rest =>
      match ruleError valid name rule with
      | some e => some e
      | none => firstFlowError valid rest

/-- `AgentDNAConfig.check_graph_integrity` (agent_dna_config.py line 157):
checks `start_node` first, then walks `flow`, raising (returning) the first
violation it meets.  The dead `"start"` special case on line 190 is a
no-op (`pass`) in the source and so has no counterpart here. -/
def check_graph_integrity (c : AgentDNAConfig) : Except String AgentDNAConfig :=
  let valid := validNames c.nodes
  if c.startNode ∈ valid then
    match firstFlowError valid c.flow with
    | some e => Except.error e
    | none => Except.ok c
  else
    Except.error ("Start node '" ++ c.startNode ++ "' is not defined in 'nodes'.")

/-- Construction of an `AgentDNAConfig` as pydantic performs it: field
validation of every node (all errors collected), then the
`mode='after'` model validator `check_graph_integrity`. -/
def mkAgentDNAConfig (c : AgentDNAConfig) : Except (List String) AgentDNAConfig :=
  match validateNodes c.nodes with
  | [] =>
      match check_graph_integrity c with
      | Except.ok c2 => Except.ok c2
      | Except.error e => Except.error [e]
  | errs => Except.error errs

/-- Spec-side predicate (§8 of the spec): `start_node ∈ nodes ∪ \x7b"end"\x7d`
and every flow target (sequence next, every branch value, default) is a
defined node name or `"end"`. -/
def ruleOk (valid : List String) : FlowRule → Bool
  | FlowRule.seq nxt => decide (nxt ∈ valid)
  | FlowRule.branch _ brs dflt =>
      brs.all (fun kt => decide (kt.2 ∈ valid)) && decide (dflt ∈ valid)

/-- Spec-side graph-integrity predicate, written from the spec's words. -/
def graphOk (c : AgentDNAConfig) : Bool :=
  let valid := validNames c.nodes
  decide (c.startNode ∈ valid) && c.flow.all (fun p => ruleOk valid p.2)

/-- Input-variable names of a signature string, following the spec's format
"input_var1, input_var2 -> output_var1, output_var2" (the part before
`"->"`, split on commas, blanks trimmed, empties dropped). -/
def sigInputNames (s : String) : List String :=
  (((pySplit ((pySplit s "->").headD "") ",").map pyStrip).filter (fun t => t ≠ ""))

/-- Output-variable names of a signature string (the part after the first
`"->"`). -/
def sigOutputNames (s : String) : List String :=
  (((pySplit (((pySplit s "->").drop 1).headD "") ",").map pyStrip).filter
    (fun t => t ≠ ""))

/- ---------------------------------------------------------------------
   engine.py : GraphAgent.forward (the graph execution loop)
--------------------------------------------------------------------- -/

/-- A value held by the execution context: node inputs/outputs are strings;
`_trace_path` is injected at the end of a run as a list of node names. -/
inductive Value where
  | str (s : String)
  | trace (t : List String)
deriving Repr, DecidableEq

/-- Python's `str(...)` on a context value; `str` of a list of strings is
its bracketed, quoted, comma-separated rendering. -/
def valToStr : Value → String
  | Value.str s => s
  | Value.trace t =>
      "[" ++ String.intercalate ", " (t.map (fun s => "'" ++ s ++ "'")) ++ "]"

/-- The execution context: a Python dict in insertion order. -/
abbrev Ctx := List (String × Value)

/-- `context.get(k)`: first binding of `k`. -/
def ctxGet : Ctx → String → Option Value
  | [], _ => none
  | (k2, v) :: rest, k => if k2 = k then some v else ctxGet rest k

/-- `context[k] = v`: replace the binding in place, else append (Python
dict assignment keeps the original insertion position). -/
def ctxSet : Ctx → String → Value → Ctx
  | [], k, v => [(k, v)]
  | (k2, v2) :: rest, k, v =>
      if k2 = k then (k, v) :: rest else (k2, v2) :: ctxSet rest k v

/-- `for k, v in prediction.items(): context[k] = v` (engine.py line 235). -/
def mergeOuts (c : Ctx) (outs : List (String × Value)) : Ctx :=
  outs.foldl (fun acc kv => ctxSet acc kv.1 kv.2) c

/-- One node-execution capability: the node's DSPy module called on the
current context, returning its outputs mapping or failing. -/
abbrev Invoker := Ctx → Except String (List (String × Value))

/-- The scan over `branches.items()` (engine.py lines 263-268): the first
key whose uppercased form is contained in the uppercased value wins; the
accumulator starts at the rule's default. -/
def resolveBranchGo (valU : String) (dflt : String) : List (String × String) → String
  | [] => dflt
  | (key, target) :: rest =>
      if strContains valU (pyUpper key) then target
      else resolveBranchGo valU dflt rest

/-- Branch routing (engine.py lines 252-273): read `context[source_var]`
(absent means the empty string), `str(...).strip()`, then match keys
case-insensitively by substring in insertion order, defaulting to `dflt`. -/
def resolveBranch (ctx : Ctx) (sourceVar : String)
    (branches : List (String × String)) (dflt : String) : String :=
  let val := pyStrip (valToStr ((ctxGet ctx sourceVar).getD (Value.str "")))
  resolveBranchGo (pyUpper val) dflt branches

/-- `self.rules.get(current_node_name)` over the workflow rules mapping. -/
def lookupRule (rules : List (String × FlowRule)) (n : String) : Option FlowRule :=
  (rules.find? (fun p => p.1 == n)).map (fun p => p.2)

/-- Routing (engine.py lines 242-278): no rule means `"end"`; a sequence
rule jumps to its `next`; a branch rule resolves against the context. -/
def resolveNext (rules : List (String × FlowRule)) (current : String) (ctx : Ctx) : String :=
  match lookupRule rules current with
  | none => "end"
  | some (FlowRule.seq nxt) => nxt
  | some (FlowRule.branch sv brs dflt) => resolveBranch ctx sv brs dflt

/-- The observable outcome of `GraphAgent.forward`: the returned mapping
(`dspy.Prediction(**context)`), the trace, and two ghost observations —
the nodes actually invoked and the output keys written by invocations. -/
structure RunResult where
  context : Ctx
  trace : List String
  invoked : List String
  written : List String
deriving Repr, DecidableEq

/-- The `while current_node_name != "end" and steps < self.max_steps` loop
of `GraphAgent.forward` (engine.py lines 218-280), with the remaining step
budget as fuel.  Each iteration appends the node to the trace, breaks if
the node is undefined (`hasattr`), invokes it (breaking on failure with
the partial context), merges the outputs and routes to the next node. -/
def execLoop (modules : String → Option Invoker) (rules : List (String × FlowRule)) :
    Nat → String → Ctx → List String → List String → List String → RunResult
  | 0, _, ctx, trace, inv, wr => ⟨ctx, trace, inv, wr⟩
  | r + 1, current, ctx, trace, inv, wr =>
      if current = "end" then ⟨ctx, trace, inv, wr⟩
      else
        let trace2 := trace ++ [current]
        match modules current with
        | none => ⟨ctx, trace2, inv, wr⟩
        | some m =>
            let inv2 := inv ++ [current]
            match m ctx with
            | Except.error _ => ⟨ctx, trace2, inv2, wr⟩
            | Except.ok outs =>
                execLoop modules rules r (resolveNext rules current (mergeOuts ctx outs))
                  (mergeOuts ctx outs) trace2 inv2 (wr ++ outs.map (fun kv => kv.1))

/-- `GraphAgent.forward` (engine.py lines 205-288): run the loop from
`start_node` over a copy of the inputs, then inject the trace into the
result under `"_trace_path"` (engine.py line 283). -/
def forward (modules : String → Option Invoker) (rules : List (String × FlowRule))
    (startNode : String) (maxSteps : Nat) (kwargs : Ctx) : RunResult :=
  let r := execLoop modules rules maxSteps startNode kwargs [] [] []
  { r with context := ctxSet r.context "_trace_path" (Value.trace r.trace) }

/-- `self.max_steps = 15` (engine.py line 203). -/
def defaultMaxSteps : Nat := 15

/- ---------------------------------------------------------------------
   optimizer.py : EvoOptimizer (evaluation, mutation, evolution loop)
--------------------------------------------------------------------- -/

/-- One labelled training example (`dspy.Example` with an `answer`). -/
structure TrainExample where
  input : String
  answer : String
deriving Repr, DecidableEq

/-- A prediction is the mapping returned by a run (`dspy.Prediction`). -/
abbrev Pred := Ctx

/-- `getattr(obj, k, "N/A")` rendered through `str` in the f-string. -/
def getAttrStr (p : Pred) (k : String) : String :=
  match ctxGet p k with
  | some v => valToStr v
  | none => "N/A"

/-- The failing-case record built in `EvoOptimizer._evaluate_agent`
(optimizer.py lines 282-286): input, expected, produced, and the trace
path when the prediction has one. -/
def caseInfo (ex : TrainExample) (p : Pred) : String :=
  let base := "Input: " ++ ex.input ++ "\nExpected: " ++ ex.answer ++
              "\nGot: " ++ getAttrStr p "answer"
  match ctxGet p "_trace_path" with
  | some v => base ++ "\nPath: " ++ valToStr v
  | none => base

/-- The example loop of `_evaluate_agent` (optimizer.py lines 273-288):
counts correct predictions and logs every failing case (a runtime error is
logged as a failing case as well). -/
def evalLoop (run : TrainExample → Except String Pred)
    (metric : TrainExample → Pred → Bool) :
    List TrainExample → Nat → List String → Nat × List String
  | [], correct, bad => (correct, bad)
  | ex :: rest, correct, bad =>
      match run ex with
      | Except.ok p =>
          if metric ex p then evalLoop run metric rest (correct + 1) bad
          else evalLoop run metric rest correct (bad ++ [caseInfo ex p])
      | Except.error e =>
          evalLoop run metric rest correct (bad ++ ["Runtime Error: " ++ e])

/-- The structured content of the diagnosis report built on optimizer.py
lines 293-295: the overall score, the failure count, and the first three
failing cases (`bad_cases_log[:3]`).  The `%.2f` float rendering of the
score inside the report string is abstracted to the score itself. -/
structure Diagnosis where
  score : ℚ
  failureCount : Nat
  topCases : List String
deriving Repr, DecidableEq

/-- `EvoOptimizer._evaluate_agent` (optimizer.py lines 248-297):
`score = (correct / total) * 100 if total > 0 else 0` and the diagnosis. -/
def evaluateAgent (run : TrainExample → Except String Pred)
    (metric : TrainExample → Pred → Bool) (trainset : List TrainExample) :
    ℚ × Diagnosis :=
  let total := trainset.length
  let cb := evalLoop run metric trainset 0 []
  let score : ℚ := if 0 < total then ((cb.1 : ℚ) / (total : ℚ)) * 100 else 0
  (score, ⟨score, cb.2.length, cb.2.take 3⟩)

/-- Spec-side count of the correct examples: those the runnable completes
and the metric accepts. -/
def specCorrect (run : TrainExample → Except String Pred)
    (metric : TrainExample → Pred → Bool) (trainset : List TrainExample) : Nat :=
  (trainset.filter (fun ex =>
    match run ex with
    | Except.ok p => metric ex p
    | Except.error _ => false)).length

/-- The output of the MetaArchitect call (optimizer.py lines 59-63). -/
structure ArchPrediction where
  refinedDnaJson : String
  mutationReason : String
deriving Repr, DecidableEq

/-- Python `str.strip(chars)` for a single character: drop every leading
and trailing occurrence. -/
def stripCharEnds (c : Char) (s : String) : String :=
  String.mk (((s.toList.dropWhile (fun d => d == c)).reverse.dropWhile
    (fun d => d == c)).reverse)

/-- The fence cleanup of `_run_outer_loop` (optimizer.py lines 335-337):
`strip()`, then — when the text starts with three backticks —
`strip("\x60").replace("json\n", "").replace("json", "")`. -/
def cleanRawJson (s : String) : String :=
  let raw := pyStrip s
  if pyStartsWith raw "```" then
    pyReplace (pyReplace (stripCharEnds '`' raw) "json\n" "") "json" ""
  else raw

/-- `EvoOptimizer._run_outer_loop` (optimizer.py lines 299-354): call the
architect, clean the fence markup, parse the JSON, re-validate through
`AgentDNAConfig(**...)`; any failure (collaborator, parse, schema) yields
`none` and none of the partial artefacts escape. -/
def runOuterLoop (architect : String → String → Except String ArchPrediction)
    (serializeCfg : AgentDNAConfig → String)
    (parseJson : String → Option AgentDNAConfig)
    (cfg : AgentDNAConfig) (diagnosisReport : String) : Option AgentDNAConfig :=
  match architect (serializeCfg cfg) diagnosisReport with
  | Except.error _ => none
  | Except.ok pred =>
      match parseJson (cleanRawJson pred.refinedDnaJson) with
      | none => none
      | some newCfg =>
          match mkAgentDNAConfig newCfg with
          | Except.ok validated => some validated
          | Except.error _ => none

/-- One history record (optimizer.py lines 189-193). -/
structure HistoryEntry where
  gen : Nat
  config : AgentDNAConfig
  score : ℚ
deriving Repr, DecidableEq

/-- The external collaborators wired into `EvoOptimizer.evolve`. -/
structure EvolveParams (Agent : Type) where
  build : AgentDNAConfig → Except String Agent
  inner : Agent → Agent
  evalAgent : Agent → ℚ × String
  architect : String → String → Except String ArchPrediction
  serializeCfg : AgentDNAConfig → String
  parseJson : String → Option AgentDNAConfig
  scoreThreshold : ℚ

/-- The outcome of `evolve`, with the ghost list of every configuration
that was assigned to `self.cur_agent_dna_config` during the run. -/
structure EvolveResult (Agent : Type) where
  agent : Option Agent
  config : AgentDNAConfig
  history : List HistoryEntry
  assigned : List AgentDNAConfig

/-- The `for generation in range(self.max_generations)` loop of
`EvoOptimizer.evolve` (optimizer.py lines 170-209), compiled to a
recursion on the remaining iteration count (`fuel + 1` iterations remain;
`0 < fuel` is Python's `generation < self.max_generations - 1`).  A build
(validation) failure breaks with the prior state; reaching the threshold
returns; a failed mutation breaks with the prior state; a successful
mutation assigns the new configuration. -/
def evolveAux {Agent : Type} (P : EvolveParams Agent) :
    Nat → Nat → Option Agent → AgentDNAConfig → List HistoryEntry →
    List AgentDNAConfig → EvolveResult Agent
  | 0, _, optAgent, cfg, hist, asg => ⟨optAgent, cfg, hist, asg⟩
  | fuel + 1, gen, optAgent, cfg, hist, asg =>
      match P.build cfg with
      | Except.error _ => ⟨optAgent, cfg, hist, asg⟩
      | Except.ok agent =>
          let optimized := P.inner agent
          let sd := P.evalAgent optimized
          let hist2 := hist ++ [⟨gen, cfg, sd.1⟩]
          if P.scoreThreshold ≤ sd.1 then ⟨some optimized, cfg, hist2, asg⟩
          else if 0 < fuel then
            match runOuterLoop P.architect P.serializeCfg P.parseJson cfg sd.2 with
            | some newCfg =>
                evolveAux P fuel (gen + 1) (some optimized) newCfg hist2 (asg ++ [newCfg])
            | none => ⟨some optimized, cfg, hist2, asg⟩
          else evolveAux P fuel (gen + 1) (some optimized) cfg hist2 asg

/-- `EvoOptimizer.evolve` from generation 0 (`max_generations` default 3). -/
def evolve {Agent : Type} (P : EvolveParams Agent) (maxGenerations : Nat)
    (cfg : AgentDNAConfig) : EvolveResult Agent :=
  evolveAux P maxGenerations 0 none cfg [] []

/-- A configuration that has passed full construction-time validation. -/
def validatedCfg (c : AgentDNAConfig) : Prop :=
  mkAgentDNAConfig c = Except.ok c

/-- Whether an `Except` is a success. -/
def exceptOk {ε α : Type} : Except ε α → Bool
  | Except.ok _ => true
  | Except.error _ => false

/-- Spec-side branch resolution, written from the spec's words (§4.2 step
6): read `context[source_var]` (absent means empty), trim whitespace,
normalize to uppercase, scan the branch keys in insertion order and pick
the first whose uppercased form is a substring of the normalized value;
fall back to the default when none matches. -/
def specBranchTarget (ctx : Ctx) (sourceVar : String)
    (branches : List (String × String)) (dflt : String) : String :=
  let valN := pyUpper (pyStrip (valToStr ((ctxGet ctx sourceVar).getD (Value.str ""))))
  match branches.find? (fun kt => strContains valN (pyUpper kt.1)) with
  | some kt => kt.2
  | none => dflt

/- ---------------------------------------------------------------------
   Theorems
--------------------------------------------------------------------- -/

theorem resolveBranchGo_eq_find (valU dflt : String) :
    ∀ brs : List (String × String),
      resolveBranchGo valU dflt brs =
        (match brs.find? (fun kt => strContains valU (pyUpper kt.1)) with
         | some kt => kt.2
         | none => dflt)
  | [] => rfl
  | (key, target) :: rest => by
      by_cases h : strContains valU (pyUpper key) = true
      · simp [resolveBranchGo, List.find?, h]
      · simp only [Bool.not_eq_true] at h
        simp [resolveBranchGo, List.find?, h, resolveBranchGo_eq_find valU dflt rest]

/-- C5: for every branch flow rule, the next node is resolved by reading
`context[source_var]` (absent means the empty string), trimming, upper-
casing, and scanning the branch keys in insertion order; the first key
whose uppercased form is a substring of the normalized value wins, and if
no key matches the default target is selected; in particular with branches
PASS to b and FAILED to c and source value "test FAILED today" the
resolved target is "c". -/
theorem branch_resolution_first_substring_match :
    (∀ (ctx : Ctx) (sourceVar : String) (branches : List (String × String))
       (dflt : String),
      resolveBranch ctx sourceVar branches dflt =
        specBranchTarget ctx sourceVar branches dflt)
    ∧ resolveBranch [("verdict", Value.str "test FAILED today")] "verdict"
        [("PASS", "b"), ("FAILED", "c")] "end" = "c" := by
  constructor
  · intro ctx sourceVar branches dflt
    unfold resolveBranch specBranchTarget
    exact resolveBranchGo_eq_find _ dflt branches
  · decide

/-- C3: corrected — `validate_signature` only checks that the signature
contains the separator "->"; it does not require non-empty input and
output variable lists, so a signature with an empty side is accepted. -/
theorem signature_validation_only_checks_arrow :
    ∀ s, validate_signature s = Except.ok s ↔ strContains s "->" = true := by
  intro s
  unfold validate_signature
  split
  · next h => simp [h]
  · next h => simp [h]

/-- C3 counterexample: a full configuration whose one node's signature
"-> answer" names no input variable at all is accepted at construction
time, refuting the claim that an empty input list is rejected. -/
theorem empty_input_signature_accepted :
    exceptOk (mkAgentDNAConfig
      ⟨"math", "1", "solve",
       [("solve", ⟨"Predict", "-> answer", "Solve it.", []⟩)],
       [("solve", FlowRule.seq "end")]⟩) = true
    ∧ sigInputNames "-> answer" = [] := by
  constructor
  · decide
  · decide

theorem execLoop_invoked_le (m : String → Option Invoker)
    (rl : List (String × FlowRule)) :
    ∀ (fuel : Nat) (cur : String) (ctx : Ctx) (tr inv wr : List String),
      (execLoop m rl fuel cur ctx tr inv wr).invoked.length ≤ inv.length + fuel := by
  intro fuel
  induction fuel with
  | zero =>
      intro cur ctx tr inv wr
      simp [execLoop]
  | succ r ih =>
      intro cur ctx tr inv wr
      by_cases hend : cur = "end"
      · simp [execLoop, hend]
      · cases hm : m cur with
        | none =>
            simp [execLoop, hend, hm]
        | some f =>
            cases hr : f ctx with
            | error e =>
                simp [execLoop, hend, hm, hr]
            | ok outs =>
                have h2 := ih (resolveNext rl cur (mergeOuts ctx outs))
                  (mergeOuts ctx outs) (tr ++ [cur]) (inv ++ [cur])
                  (wr ++ outs.map (fun kv => kv.1))
                simp only [List.length_append, List.length_cons,
                  List.length_nil] at h2
                simp [execLoop, hend, hm, hr]
                omega

/-- C4: for every configuration and every initial context, one execution
run performs at most `maxSteps` (default 15) node invocations before
halting, regardless of flow topology, including pure cycles. -/
theorem step_bound_limits_invocations :
    (∀ (modules : String → Option Invoker) (rules : List (String × FlowRule))
       (startNode : String) (maxSteps : Nat) (kwargs : Ctx),
        (forward modules rules startNode maxSteps kwargs).invoked.length ≤ maxSteps)
    ∧ defaultMaxSteps = 15 := by
  constructor
  · intro modules rules startNode maxSteps kwargs
    have h := execLoop_invoked_le modules rules maxSteps startNode kwargs [] [] []
    simpa [forward] using h
  · rfl

/-- C6: executing the configuration with the single node a (inputs x,
outputs y) and flow a to end, where invoking node a returns y = "1", on
initial context x = "0" yields the trace ["a"] and a final context mapping
x to "0" and y to "1" (the trace is embedded in the returned mapping under
the reserved key "_trace_path", which is how `forward` reports it). -/
theorem single_node_scenario :
    forward
      (fun n => if n = "a" then some (fun _ => Except.ok [("y", Value.str "1")]) else none)
      [("a", FlowRule.seq "end")] "a" defaultMaxSteps [("x", Value.str "0")]
    = ⟨[("x", Value.str "0"), ("y", Value.str "1"), ("_trace_path", Value.trace ["a"])],
       ["a"], ["a"], ["y"]⟩ := by
  decide

/-- C9: code bug — the fence cleanup is meant to strip only surrounding
code-fence markup, but after removing the backticks it erases every
occurrence of "json" from the whole text, so a fenced JSON document whose
content contains the substring "json" is not handed to the parser intact:
the agent_id value "my_json_agent" arrives as "my__agent". -/
theorem fence_stripping_mangles_json_content :
    cleanRawJson "```json\n\x7b\"agent_id\": \"my_json_agent\"\x7d\n```"
      = "\x7b\"agent_id\": \"my__agent\"\x7d\n"
    ∧ cleanRawJson "```json\n\x7b\"agent_id\": \"my_json_agent\"\x7d\n```"
        ≠ "\x7b\"agent_id\": \"my_json_agent\"\x7d" := by
  constructor
  · decide
  · decide

theorem ruleError_none_iff (valid : List String) (name : String) (r : FlowRule) :
    ruleError valid name r = none ↔ ruleOk valid r = true := by
  cases r with
  | seq nxt =>
      by_cases h : nxt ∈ valid
      · simp [ruleError, ruleOk, h]
      · simp [ruleError, ruleOk, h]
  | branch sv brs dflt =>
      cases hf : brs.find? (fun kt => !(decide (kt.2 ∈ valid))) with
      | some kt =>
          have hmem := List.mem_of_find?_eq_some hf
          have hp : ¬ (kt.2 ∈ valid) := by
            have := List.find?_some hf
            simpa using this
          simp only [ruleError, hf, ruleOk]
          constructor
          · intro h
            exact absurd h (by simp)
          · intro h
            exfalso
            have hall := (Bool.and_eq_true_iff.mp h).1
            have := List.all_eq_true.mp hall kt hmem
            exact hp (by simpa using this)
      | none =>
          have hall : brs.all (fun kt => decide (kt.2 ∈ valid)) = true := by
            apply List.all_eq_true.mpr
            intro kt hmem
            have := List.find?_eq_none.mp hf kt hmem
            simpa using this
          by_cases hd : dflt ∈ valid
          · simp only [ruleError, hf, ruleOk]
            simp [hd, hall]
          · simp only [ruleError, hf, ruleOk]
            simp [hd]

theorem firstFlowError_none_iff (valid : List String) :
    ∀ flow : List (String × FlowRule),
      firstFlowError valid flow = none ↔
        flow.all (fun p => ruleOk valid p.2) = true
  | [] => by simp [firstFlowError]
  | (name, rule) :: rest => by
      cases he : ruleError valid name rule with
      | some e =>
          have hrule : ¬ (ruleOk valid rule = true) := by
            intro h
            have h2 := (ruleError_none_iff valid name rule).mpr h
            rw [he] at h2
            cases h2
          simp [firstFlowError, he, hrule]
      | none =>
          have h1 := (ruleError_none_iff valid name rule).mp he
          simp [firstFlowError, he, h1, firstFlowError_none_iff valid rest]

theorem check_graph_integrity_ok_eq {c d : AgentDNAConfig}
    (h : check_graph_integrity c = Except.ok d) : d = c := by
  unfold check_graph_integrity at h
  by_cases hs : c.startNode ∈ validNames c.nodes
  · simp only [if_pos hs] at h
    cases hf : firstFlowError (validNames c.nodes) c.flow with
    | some e => rw [hf] at h; cases h
    | none => rw [hf] at h; cases h; rfl
  · simp only [if_neg hs] at h
    cases h

theorem check_graph_integrity_ok_iff (c : AgentDNAConfig) :
    check_graph_integrity c = Except.ok c ↔ graphOk c = true := by
  unfold check_graph_integrity graphOk
  by_cases hs : c.startNode ∈ validNames c.nodes
  · cases hf : firstFlowError (validNames c.nodes) c.flow with
    | some e =>
        have hall : ¬ (c.flow.all (fun p => ruleOk (validNames c.nodes) p.2) = true) := by
          intro h
          have h2 := (firstFlowError_none_iff (validNames c.nodes) c.flow).mpr h
          rw [hf] at h2
          cases h2
        simp [hs, hf, hall]
    | none =>
        simp [hs, hf, (firstFlowError_none_iff (validNames c.nodes) c.flow).mp hf]
  · simp [hs]

theorem mkAgentDNAConfig_ok_eq {c d : AgentDNAConfig}
    (h : mkAgentDNAConfig c = Except.ok d) : d = c := by
  unfold mkAgentDNAConfig at h
  cases hv : validateNodes c.nodes with
  | nil =>
      rw [hv] at h
      cases hc : check_graph_integrity c with
      | ok c2 =>
          rw [hc] at h
          cases h
          exact check_graph_integrity_ok_eq hc
      | error e => rw [hc] at h; cases h
  | cons e es => rw [hv] at h; cases h

theorem mkAgentDNAConfig_isOk_iff (c : AgentDNAConfig)
    (h : validateNodes c.nodes = []) :
    exceptOk (mkAgentDNAConfig c) = true ↔ graphOk c = true := by
  unfold mkAgentDNAConfig
  rw [h]
  cases hc : check_graph_integrity c with
  | ok c2 =>
      have hc2 : check_graph_integrity c = Except.ok c := by
        rw [check_graph_integrity_ok_eq hc] at hc
        exact hc
      simp [exceptOk, (check_graph_integrity_ok_iff c).mp hc2]
  | error e =>
      have hng : ¬ (graphOk c = true) := by
        intro hg
        have h2 := (check_graph_integrity_ok_iff c).mpr hg
        rw [hc] at h2
        cases h2
      simp [exceptOk, hng]

/-- C1: corrected — for raw inputs whose node fields pass field validation
(type an allowed literal, signature containing "->"), construction
succeeds iff start_node is a defined node name or "end" and every flow
target (sequence next, each branch value, each default) is a defined node
name or "end"; a bad start node is rejected with an error naming it. -/
theorem construction_iff_graph_integrity (c : AgentDNAConfig)
    (h : validateNodes c.nodes = []) :
    (exceptOk (mkAgentDNAConfig c) = true ↔ graphOk c = true)
    ∧ (c.startNode ∉ validNames c.nodes →
        mkAgentDNAConfig c = Except.error
          ["Start node '" ++ c.startNode ++ "' is not defined in 'nodes'."]) := by
  constructor
  · exact mkAgentDNAConfig_isOk_iff c h
  · intro hs
    unfold mkAgentDNAConfig check_graph_integrity
    rw [h]
    simp [hs]

/-- Witness for C1's amended theorem at a concrete well-formed input. -/
theorem construction_iff_graph_integrity_witness :
    validateNodes [("solve", NodeConfig.mk "Predict" "q -> answer" "Solve." [])] = []
    ∧ (exceptOk (mkAgentDNAConfig ⟨"m", "1", "solve",
         [("solve", NodeConfig.mk "Predict" "q -> answer" "Solve." [])],
         [("solve", FlowRule.seq "end")]⟩) = true
       ↔ graphOk ⟨"m", "1", "solve",
         [("solve", NodeConfig.mk "Predict" "q -> answer" "Solve." [])],
         [("solve", FlowRule.seq "end")]⟩ = true) :=
  ⟨by decide, (construction_iff_graph_integrity _ (by decide)).1⟩

/-- C1 counterexample: a raw input whose start node and every flow target
resolve, yet whose construction fails (its node's signature lacks "->"),
refuting the claimed "if" direction. -/
theorem construction_fails_despite_valid_graph_targets :
    graphOk ⟨"m", "1", "solve",
      [("solve", NodeConfig.mk "Predict" "question answer" "Solve." [])],
      [("solve", FlowRule.seq "end")]⟩ = true
    ∧ exceptOk (mkAgentDNAConfig ⟨"m", "1", "solve",
        [("solve", NodeConfig.mk "Predict" "question answer" "Solve." [])],
        [("solve", FlowRule.seq "end")]⟩) = false := by
  constructor
  · decide
  · decide

theorem firstFlowError_append (valid : List String) :
    ∀ (pre rest : List (String × FlowRule)),
      (∀ p ∈ pre, ruleOk valid p.2 = true) →
      firstFlowError valid (pre ++ rest) = firstFlowError valid rest
  | [], _, _ => rfl
  | (n, r) :: pre, rest, h => by
      have hr : ruleOk valid r = true := h (n, r) (by simp)
      have he : ruleError valid n r = none := (ruleError_none_iff valid n r).mpr hr
      simp only [List.cons_append, firstFlowError, he]
      exact firstFlowError_append valid pre rest (fun p hp => h p (by simp [hp]))

/-- C2: corrected — graph validation short-circuits at the first defect in
flow insertion order: for any flow mapping split as pre ++ (name, rule) ::
post where every rule of pre is defect-free and rule has a defect (an
unresolvable sequence next, branch value, or default), construction
reports exactly that rule's first defect, skipping the defect-free
entries before it and independent of every entry after it. -/
theorem validation_reports_only_first_defect (c : AgentDNAConfig)
    (pre : List (String × FlowRule)) (name : String) (rule : FlowRule)
    (post : List (String × FlowRule))
    (hnodes : validateNodes c.nodes = [])
    (hstart : c.startNode ∈ validNames c.nodes)
    (hflow : c.flow = pre ++ (name, rule) :: post)
    (hpre : ∀ p ∈ pre, ruleOk (validNames c.nodes) p.2 = true)
    (hbad : ruleOk (validNames c.nodes) rule = false) :
    ∃ msg, ruleError (validNames c.nodes) name rule = some msg
      ∧ mkAgentDNAConfig c = Except.error [msg] := by
  cases he : ruleError (validNames c.nodes) name rule with
  | none =>
      exfalso
      have h1 := (ruleError_none_iff (validNames c.nodes) name rule).mp he
      rw [hbad] at h1
      cases h1
  | some msg =>
      refine ⟨msg, rfl, ?_⟩
      unfold mkAgentDNAConfig check_graph_integrity
      rw [hnodes, hflow]
      simp [hstart, firstFlowError_append (validNames c.nodes) pre
        ((name, rule) :: post) hpre, firstFlowError, he]

/-- Witness for C2's amended theorem: a branch-target defect in the second
flow entry, behind a defect-free rule and in front of a further defective
one, is the one defect reported. -/
theorem validation_reports_only_first_defect_witness :
    mkAgentDNAConfig ⟨"m", "1", "a",
      [("a", NodeConfig.mk "Predict" "q -> r" "i" []),
       ("b", NodeConfig.mk "Predict" "q -> r" "i" []),
       ("c", NodeConfig.mk "Predict" "q -> r" "i" [])],
      [("a", FlowRule.seq "b"),
       ("b", FlowRule.branch "v" [("K", "bad1")] "end"),
       ("c", FlowRule.seq "bad2")]⟩
    = Except.error ["Node 'b' branch 'K' points to undefined node 'bad1'"] := by
  obtain ⟨msg, hmsg, hmk⟩ := validation_reports_only_first_defect
    ⟨"m", "1", "a",
     [("a", NodeConfig.mk "Predict" "q -> r" "i" []),
      ("b", NodeConfig.mk "Predict" "q -> r" "i" []),
      ("c", NodeConfig.mk "Predict" "q -> r" "i" [])],
     [("a", FlowRule.seq "b"),
      ("b", FlowRule.branch "v" [("K", "bad1")] "end"),
      ("c", FlowRule.seq "bad2")]⟩
    [("a", FlowRule.seq "b")] "b" (FlowRule.branch "v" [("K", "bad1")] "end")
    [("c", FlowRule.seq "bad2")]
    (by decide) (by decide) rfl (by decide) (by decide)
  have h2 : ruleError (validNames
      [("a", NodeConfig.mk "Predict" "q -> r" "i" []),
       ("b", NodeConfig.mk "Predict" "q -> r" "i" []),
       ("c", NodeConfig.mk "Predict" "q -> r" "i" [])]) "b"
      (FlowRule.branch "v" [("K", "bad1")] "end")
      = some "Node 'b' branch 'K' points to undefined node 'bad1'" := by decide
  rw [h2] at hmsg
  cases hmsg
  exact hmk

/-- C2 counterexample: with two flow rules each pointing at an undefined
node, the only error produced names the first defect and never mentions
the second undefined target. -/
theorem first_defect_only_counterexample :
    mkAgentDNAConfig ⟨"poem", "1", "a",
      [("a", NodeConfig.mk "ChainOfThought" "t -> u" "i" []),
       ("b", NodeConfig.mk "ChainOfThought" "t -> u" "i" [])],
      [("a", FlowRule.seq "missing1"), ("b", FlowRule.seq "missing2")]⟩
      = Except.error ["Node 'a' points to undefined node 'missing1'"]
    ∧ strContains "Node 'a' points to undefined node 'missing1'" "missing2" = false := by
  constructor
  · rfl
  · decide

theorem evalLoop_fst (run : TrainExample → Except String Pred)
    (metric : TrainExample → Pred → Bool) :
    ∀ (exs : List TrainExample) (c0 : Nat) (bad0 : List String),
      (evalLoop run metric exs c0 bad0).1 = c0 + specCorrect run metric exs
  | [], c0, bad0 => by simp [evalLoop, specCorrect]
  | ex :: rest, c0, bad0 => by
      cases hr : run ex with
      | ok p =>
          by_cases hm : metric ex p = true
          · rw [show evalLoop run metric (ex :: rest) c0 bad0
                  = evalLoop run metric rest (c0 + 1) bad0 from by
                simp [evalLoop, hr, hm]]
            rw [evalLoop_fst run metric rest (c0 + 1) bad0]
            have hsc : specCorrect run metric (ex :: rest)
                = specCorrect run metric rest + 1 := by
              simp [specCorrect, List.filter_cons, hr, hm]
            omega
          · rw [show evalLoop run metric (ex :: rest) c0 bad0
                  = evalLoop run metric rest c0 (bad0 ++ [caseInfo ex p]) from by
                simp [evalLoop, hr, hm]]
            rw [evalLoop_fst run metric rest c0 (bad0 ++ [caseInfo ex p])]
            have hsc : specCorrect run metric (ex :: rest)
                = specCorrect run metric rest := by
              simp [specCorrect, List.filter_cons, hr, hm]
            omega
      | error e =>
          rw [show evalLoop run metric (ex :: rest) c0 bad0
                = evalLoop run metric rest c0 (bad0 ++ ["Runtime Error: " ++ e]) from by
              simp [evalLoop, hr]]
          rw [evalLoop_fst run metric rest c0 (bad0 ++ ["Runtime Error: " ++ e])]
          have hsc : specCorrect run metric (ex :: rest)
              = specCorrect run metric rest := by
            simp [specCorrect, List.filter_cons, hr]
          omega

theorem evalLoop_total (run : TrainExample → Except String Pred)
    (metric : TrainExample → Pred → Bool) :
    ∀ (exs : List TrainExample) (c0 : Nat) (bad0 : List String),
      (evalLoop run metric exs c0 bad0).1 + (evalLoop run metric exs c0 bad0).2.length
        = c0 + bad0.length + exs.length
  | [], c0, bad0 => by simp [evalLoop]
  | ex :: rest, c0, bad0 => by
      cases hr : run ex with
      | ok p =>
          by_cases hm : metric ex p = true
          · rw [show evalLoop run metric (ex :: rest) c0 bad0
                  = evalLoop run metric rest (c0 + 1) bad0 from by
                simp [evalLoop, hr, hm]]
            have := evalLoop_total run metric rest (c0 + 1) bad0
            simp at this ⊢
            omega
          · rw [show evalLoop run metric (ex :: rest) c0 bad0
                  = evalLoop run metric rest c0 (bad0 ++ [caseInfo ex p]) from by
                simp [evalLoop, hr, hm]]
            have := evalLoop_total run metric rest c0 (bad0 ++ [caseInfo ex p])
            simp at this ⊢
            omega
      | error e =>
          rw [show evalLoop run metric (ex :: rest) c0 bad0
                = evalLoop run metric rest c0 (bad0 ++ ["Runtime Error: " ++ e]) from by
              simp [evalLoop, hr]]
          have := evalLoop_total run metric rest c0 (bad0 ++ ["Runtime Error: " ++ e])
          simp at this ⊢
          omega

/-- C7: for every example set, evaluation returns
score = 100 × correctCount / totalCount (and 0 when the set is empty); the
diagnosis report carries the overall score, the failure count (failures
plus correct answers exhaust the set) and at most the first 3 failing
cases; in particular evaluating 3 examples with 2 correct yields the score
200/3 = 66.666… . -/
theorem evaluation_score_and_diagnosis :
    (∀ (run : TrainExample → Except String Pred)
       (metric : TrainExample → Pred → Bool) (exs : List TrainExample),
        (evaluateAgent run metric exs).1 =
          (if exs.length = 0 then 0
           else 100 * (specCorrect run metric exs : ℚ) / (exs.length : ℚ))
        ∧ (evaluateAgent run metric exs).2.score = (evaluateAgent run metric exs).1
        ∧ (evaluateAgent run metric exs).2.failureCount + specCorrect run metric exs
            = exs.length
        ∧ (evaluateAgent run metric exs).2.topCases
            = (evalLoop run metric exs 0 []).2.take 3
        ∧ (evaluateAgent run metric exs).2.topCases.length ≤ 3)
    ∧ (evaluateAgent (fun ex => Except.ok [("answer", Value.str ex.input)])
        (fun _ p => getAttrStr p "answer" == "ok")
        [⟨"ok", "1"⟩, ⟨"ok", "2"⟩, ⟨"no", "3"⟩]).1 = 200 / 3 := by
  constructor
  · intro run metric exs
    refine ⟨?_, rfl, ?_, rfl, ?_⟩
    · by_cases h : exs.length = 0
      · simp [evaluateAgent, h]
      · simp only [evaluateAgent]
        rw [if_pos (Nat.pos_of_ne_zero h), if_neg h]
        rw [evalLoop_fst run metric exs 0 []]
        push_cast
        ring
    · have ht := evalLoop_total run metric exs 0 []
      have hf := evalLoop_fst run metric exs 0 []
      simp only [evaluateAgent, List.length_nil] at ht hf ⊢
      omega
    · simp only [evaluateAgent]
      simp [List.length_take]
  · have h : (evalLoop (fun ex => Except.ok [("answer", Value.str ex.input)])
        (fun _ p => getAttrStr p "answer" == "ok")
        [⟨"ok", "1"⟩, ⟨"ok", "2"⟩, ⟨"no", "3"⟩] 0 []).1 = 2 := by decide
    simp only [evaluateAgent, h, List.length_cons, List.length_nil]
    norm_num

theorem ctxGet_ctxSet_self : ∀ (c : Ctx) (k : String) (v : Value),
    ctxGet (ctxSet c k v) k = some v
  | [], k, v => by simp [ctxSet, ctxGet]
  | (k2, v2) :: rest, k, v => by
      by_cases h : k2 = k
      · simp [ctxSet, ctxGet, h]
      · simp [ctxSet, ctxGet, h, ctxGet_ctxSet_self rest k v]

theorem ctxGet_ctxSet_ne : ∀ (c : Ctx) (k q : String) (v : Value), q ≠ k →
    ctxGet (ctxSet c k v) q = ctxGet c q
  | [], k, q, v, h => by simp [ctxSet, ctxGet, Ne.symm h]
  | (k2, v2) :: rest, k, q, v, h => by
      by_cases h2 : k2 = k
      · subst h2
        simp [ctxSet, ctxGet, Ne.symm h]
      · by_cases h3 : k2 = q
        · simp [ctxSet, ctxGet, h2, h3, h]
        · simp [ctxSet, ctxGet, h2, h3, ctxGet_ctxSet_ne rest k q v h]

theorem ctxGet_mergeOuts_of_not_mem :
    ∀ (outs : List (String × Value)) (c : Ctx) (q : String),
      q ∉ outs.map (fun kv => kv.1) →
      ctxGet (mergeOuts c outs) q = ctxGet c q
  | [], _, _, _ => rfl
  | (k, v) :: rest, c, q, h => by
      have h1 : q ≠ k := by
        intro hq
        exact h (by simp [hq])
      have h2 : q ∉ rest.map (fun kv => kv.1) := by
        intro hq
        exact h (by simp [hq])
      rw [show mergeOuts c ((k, v) :: rest) = mergeOuts (ctxSet c k v) rest from rfl]
      rw [ctxGet_mergeOuts_of_not_mem rest (ctxSet c k v) q h2]
      exact ctxGet_ctxSet_ne c k q v h1

theorem execLoop_written_append (m : String → Option Invoker)
    (rl : List (String × FlowRule)) :
    ∀ (fuel : Nat) (cur : String) (ctx : Ctx) (tr inv wr : List String),
      ∃ s, (execLoop m rl fuel cur ctx tr inv wr).written = wr ++ s := by
  intro fuel
  induction fuel with
  | zero =>
      intro cur ctx tr inv wr
      exact ⟨[], by simp [execLoop]⟩
  | succ r ih =>
      intro cur ctx tr inv wr
      by_cases hend : cur = "end"
      · exact ⟨[], by simp [execLoop, hend]⟩
      · cases hm : m cur with
        | none => exact ⟨[], by simp [execLoop, hend, hm]⟩
        | some f =>
            cases hr : f ctx with
            | error e => exact ⟨[], by simp [execLoop, hend, hm, hr]⟩
            | ok outs =>
                obtain ⟨s, hs⟩ := ih (resolveNext rl cur (mergeOuts ctx outs))
                  (mergeOuts ctx outs) (tr ++ [cur]) (inv ++ [cur])
                  (wr ++ outs.map (fun kv => kv.1))
                exact ⟨outs.map (fun kv => kv.1) ++ s, by
                  simp [execLoop, hend, hm, hr, hs]⟩

theorem execLoop_frame (m : String → Option Invoker)
    (rl : List (String × FlowRule)) (q : String) :
    ∀ (fuel : Nat) (cur : String) (ctx : Ctx) (tr inv wr : List String),
      q ∉ (execLoop m rl fuel cur ctx tr inv wr).written →
      ctxGet (execLoop m rl fuel cur ctx tr inv wr).context q = ctxGet ctx q := by
  intro fuel
  induction fuel with
  | zero =>
      intro cur ctx tr inv wr _
      simp [execLoop]
  | succ r ih =>
      intro cur ctx tr inv wr h
      by_cases hend : cur = "end"
      · simp [execLoop, hend]
      · cases hm : m cur with
        | none => simp [execLoop, hend, hm]
        | some f =>
            cases hr : f ctx with
            | error e => simp [execLoop, hend, hm, hr]
            | ok outs =>
                rw [show execLoop m rl (r + 1) cur ctx tr inv wr
                    = execLoop m rl r (resolveNext rl cur (mergeOuts ctx outs))
                        (mergeOuts ctx outs) (tr ++ [cur]) (inv ++ [cur])
                        (wr ++ outs.map (fun kv => kv.1)) from by
                  simp [execLoop, hend, hm, hr]] at h ⊢
                obtain ⟨s, hs⟩ := execLoop_written_append m rl r
                  (resolveNext rl cur (mergeOuts ctx outs)) (mergeOuts ctx outs)
                  (tr ++ [cur]) (inv ++ [cur]) (wr ++ outs.map (fun kv => kv.1))
                have hq : q ∉ outs.map (fun kv => kv.1) := by
                  rw [hs] at h
                  intro hmem
                  exact h (by simp [hmem])
                rw [ih _ _ _ _ _ h]
                exact ctxGet_mergeOuts_of_not_mem outs ctx q hq

/-- C10: the final context returned by a run always maps "_trace_path" to
the ordered list of node names visited during that run, overwriting any
same-named entry present in the inputs or produced by node outputs; and
every initial entry whose key is never written by a node output (and is
not "_trace_path") is returned unchanged. -/
theorem trace_injection_and_frame :
    (∀ (modules : String → Option Invoker) (rules : List (String × FlowRule))
       (startNode : String) (maxSteps : Nat) (kwargs : Ctx),
        ctxGet (forward modules rules startNode maxSteps kwargs).context "_trace_path"
          = some (Value.trace (forward modules rules startNode maxSteps kwargs).trace))
    ∧ (∀ (modules : String → Option Invoker) (rules : List (String × FlowRule))
       (startNode : String) (maxSteps : Nat) (kwargs : Ctx) (q : String),
        q ≠ "_trace_path" →
        q ∉ (forward modules rules startNode maxSteps kwargs).written →
        ctxGet (forward modules rules startNode maxSteps kwargs).context q
          = ctxGet kwargs q) := by
  constructor
  · intro modules rules startNode maxSteps kwargs
    simp only [forward]
    exact ctxGet_ctxSet_self _ _ _
  · intro modules rules startNode maxSteps kwargs q hq hw
    simp only [forward] at hw ⊢
    rw [ctxGet_ctxSet_ne _ _ _ _ hq]
    exact execLoop_frame modules rules q maxSteps startNode kwargs [] [] [] hw

/-- Witness for C10 at a concrete run with one untouched input entry. -/
theorem trace_injection_and_frame_witness :
    ctxGet (forward (fun _ => none) [] "n" 15 [("k", Value.str "v")]).context "k"
      = some (Value.str "v") :=
  trace_injection_and_frame.2 (fun _ => none) [] "n" 15 [("k", Value.str "v")] "k"
    (by decide) (by decide)

theorem runOuterLoop_validated
    (architect : String → String → Except String ArchPrediction)
    (serializeCfg : AgentDNAConfig → String)
    (parseJson : String → Option AgentDNAConfig)
    (cfg : AgentDNAConfig) (diag : String) (c : AgentDNAConfig)
    (h : runOuterLoop architect serializeCfg parseJson cfg diag = some c) :
    validatedCfg c := by
  unfold runOuterLoop at h
  cases ha : architect (serializeCfg cfg) diag with
  | error e => simp only [ha] at h; cases h
  | ok pred =>
      simp only [ha] at h
      cases hp : parseJson (cleanRawJson pred.refinedDnaJson) with
      | none => simp only [hp] at h; cases h
      | some newCfg =>
          simp only [hp] at h
          cases hv : mkAgentDNAConfig newCfg with
          | ok validated =>
              simp only [hv, Option.some.injEq] at h
              subst h
              have he := mkAgentDNAConfig_ok_eq hv
              show mkAgentDNAConfig validated = Except.ok validated
              rw [he] at hv ⊢
              exact hv
          | error e => simp only [hv] at h; cases h

theorem evolveAux_assigned {Agent : Type} (P : EvolveParams Agent) :
    ∀ (fuel gen : Nat) (optAgent : Option Agent) (cfg : AgentDNAConfig)
      (hist : List HistoryEntry) (asg : List AgentDNAConfig) (c : AgentDNAConfig),
      c ∈ (evolveAux P fuel gen optAgent cfg hist asg).assigned →
      c ∈ asg ∨ validatedCfg c := by
  intro fuel
  induction fuel with
  | zero =>
      intro gen a cfg hist asg c h
      exact Or.inl (by simpa [evolveAux] using h)
  | succ f ih =>
      intro gen a cfg hist asg c h
      cases hb : P.build cfg with
      | error e =>
          rw [show evolveAux P (f + 1) gen a cfg hist asg
              = ⟨a, cfg, hist, asg⟩ from by simp [evolveAux, hb]] at h
          exact Or.inl h
      | ok agent =>
          by_cases hs : P.scoreThreshold ≤ (P.evalAgent (P.inner agent)).1
          · rw [show evolveAux P (f + 1) gen a cfg hist asg
                = ⟨some (P.inner agent), cfg,
                   hist ++ [⟨gen, cfg, (P.evalAgent (P.inner agent)).1⟩], asg⟩ from by
              simp [evolveAux, hb, hs]] at h
            exact Or.inl h
          · by_cases hf : 0 < f
            · cases hm : runOuterLoop P.architect P.serializeCfg P.parseJson cfg
                  (P.evalAgent (P.inner agent)).2 with
              | some newCfg =>
                  rw [show evolveAux P (f + 1) gen a cfg hist asg
                      = evolveAux P f (gen + 1) (some (P.inner agent)) newCfg
                          (hist ++ [⟨gen, cfg, (P.evalAgent (P.inner agent)).1⟩])
                          (asg ++ [newCfg]) from by
                    simp [evolveAux, hb, hs, hf, hm]] at h
                  rcases ih (gen + 1) (some (P.inner agent)) newCfg
                      (hist ++ [⟨gen, cfg, (P.evalAgent (P.inner agent)).1⟩])
                      (asg ++ [newCfg]) c h with hin | hval
                  · rcases List.mem_append.mp hin with h1 | h2
                    · exact Or.inl h1
                    · have hc : c = newCfg := by simpa using h2
                      subst hc
                      exact Or.inr (runOuterLoop_validated _ _ _ _ _ _ hm)
                  · exact Or.inr hval
              | none =>
                  rw [show evolveAux P (f + 1) gen a cfg hist asg
                      = ⟨some (P.inner agent), cfg,
                         hist ++ [⟨gen, cfg, (P.evalAgent (P.inner agent)).1⟩], asg⟩ from by
                    simp [evolveAux, hb, hs, hf, hm]] at h
                  exact Or.inl h
            · rw [show evolveAux P (f + 1) gen a cfg hist asg
                  = evolveAux P f (gen + 1) (some (P.inner agent)) cfg
                      (hist ++ [⟨gen, cfg, (P.evalAgent (P.inner agent)).1⟩]) asg from by
                simp [evolveAux, hb, hs, hf]] at h
              exact ih (gen + 1) (some (P.inner agent)) cfg
                (hist ++ [⟨gen, cfg, (P.evalAgent (P.inner agent)).1⟩]) asg c h

/-- C8: the active configuration reference is only ever replaced by a
value that has passed full validation, and a mutation failure of any kind
(collaborator failure, malformed output, schema violation — every case in
which `runOuterLoop` yields none) leaves the active configuration and the
current runnable unchanged: evolution halts returning this generation's
(runnable, config) pair. -/
theorem config_replacement_validated_and_rollback :
    (∀ (Agent : Type) (P : EvolveParams Agent) (maxGen : Nat)
       (cfg c : AgentDNAConfig),
        c ∈ (evolve P maxGen cfg).assigned → validatedCfg c)
    ∧ (∀ (Agent : Type) (P : EvolveParams Agent) (fuel gen : Nat)
       (optAgent : Option Agent) (cfg : AgentDNAConfig)
       (hist : List HistoryEntry) (asg : List AgentDNAConfig) (agent : Agent),
        P.build cfg = Except.ok agent →
        (P.evalAgent (P.inner agent)).1 < P.scoreThreshold →
        runOuterLoop P.architect P.serializeCfg P.parseJson cfg
            (P.evalAgent (P.inner agent)).2 = none →
        evolveAux P (fuel + 1) gen optAgent cfg hist asg =
          ⟨some (P.inner agent), cfg,
           hist ++ [⟨gen, cfg, (P.evalAgent (P.inner agent)).1⟩], asg⟩) := by
  constructor
  · intro Agent P maxGen cfg c h
    rcases evolveAux_assigned P maxGen 0 none cfg [] [] c h with h1 | h2
    · cases h1
    · exact h2
  · intro Agent P fuel gen optAgent cfg hist asg agent hb hscore hm
    have hs : ¬ (P.scoreThreshold ≤ (P.evalAgent (P.inner agent)).1) := not_le.mpr hscore
    by_cases hf : 0 < fuel
    · simp [evolveAux, hb, hs, hf, hm]
    · have hf0 : fuel = 0 := by omega
      subst hf0
      simp [evolveAux, hb, hs]

/-- Witness for C8: a successful mutation only installs a validated
configuration, and a failing architect call halts evolution with the
generation's pair unchanged. -/
theorem config_replacement_witness :
    validatedCfg (⟨"w", "1", "end", [], []⟩ : AgentDNAConfig)
    ∧ evolveAux
        (⟨fun _ => Except.ok (), id, fun _ => ((0 : ℚ), "d"),
          fun _ _ => Except.error "down", fun _ => "", fun _ => none, 90⟩ :
          EvolveParams Unit)
        (1 + 1) 0 none ⟨"w", "1", "end", [], []⟩ [] []
      = ⟨some (), ⟨"w", "1", "end", [], []⟩,
         [⟨0, ⟨"w", "1", "end", [], []⟩, 0⟩], []⟩ :=
  ⟨config_replacement_validated_and_rollback.1 Unit
      ⟨fun _ => Except.ok (), id, fun _ => ((0 : ℚ), "d"),
       fun _ _ => Except.ok ⟨"x", "r"⟩, fun _ => "",
       fun _ => some ⟨"w", "1", "end", [], []⟩, 90⟩
      2 ⟨"w", "1", "end", [], []⟩ ⟨"w", "1", "end", [], []⟩ (by decide),
   config_replacement_validated_and_rollback.2 Unit
      ⟨fun _ => Except.ok (), id, fun _ => ((0 : ℚ), "d"),
       fun _ _ => Except.error "down", fun _ => "", fun _ => none, 90⟩
      1 0 none ⟨"w", "1", "end", [], []⟩ [] [] () rfl (by norm_num) rfl⟩

end EvoForge
